import Mathlib

/-!
Shallow embedding of the core of the ha_log_assistant integration
(files custom_components/ha_log_assistant/openai_client.py and
custom_components/ha_log_assistant/log_monitor.py), together with
theorems settling the frozen claims about it.

Modelling conventions:
* Python dictionaries whose keys are strings are embedded as association
  lists in insertion order; assigning to an existing key keeps its
  position, assigning a fresh key appends at the end, exactly as CPython
  dicts behave.
* JSON scalar values are embedded as the inductive type PyVal.  The
  json.loads library call (together with the brace-extraction regex that
  precedes it in _parse_response) is treated as an external decoder of
  type String -> Option PyObj: none models a json.JSONDecodeError, some d
  models a successfully decoded JSON object.
* The network call inside _call_openai_api is external; it is modelled
  in two ways.  For the retry logic (claim C1) a per-attempt outcome
  function Nat -> ApiOutcome describes what the service does on each
  attempt.  For the scan cycle, the already-retried call is a function
  String -> String -> Option String from (log_text, issue_type) to the
  completion body; this composes the prompt construction (which is a
  pure function of log_text, issue_type and their metadata) with the
  transport, and none models an absent result.
* Wall-clock timestamps (detected_at, last_scan_time) and the event /
  notification side effects are outside the model: they are written to
  an external sink and never read back by the core.
-/

/-- Embedded Python/JSON scalar value, as produced by json.loads and
stored in response dictionaries. -/
inductive PyVal where
  | vInt : Int → PyVal
  | vStr : String → PyVal
  | vBool : Bool → PyVal
  | vNone : PyVal
deriving DecidableEq, Repr

/-- A decoded JSON object / Python dict with string keys, in insertion
order. -/
abbrev PyObj := List (String × PyVal)

/-- Python dict lookup d[k] / d.get(k): first (unique) binding of k. -/
def dictGet {α : Type} (d : List (String × α)) (k : String) : Option α :=
  match d.find? (fun kv => kv.1 == k) with
  | some kv => some kv.2
  | none => none

/-- Python membership test: k in d. -/
def hasKey {α : Type} (d : List (String × α)) (k : String) : Bool :=
  (d.find? (fun kv => kv.1 == k)).isSome

/-- Python dict assignment d[k] = v: update in place when k is present,
append at the end when it is fresh. -/
def dictSet {α : Type} : List (String × α) → String → α → List (String × α)
  | [], k, v => [(k, v)]
  | kv :: rest, k, v =>
    if kv.1 == k then (k, v) :: rest else kv :: dictSet rest k v

/-- Python dict.get(k, dflt). -/
def dictGetD {α : Type} (d : List (String × α)) (k : String) (dflt : α) : α :=
  match dictGet d k with
  | some v => v
  | none => dflt

/-- Python truthiness of an embedded scalar value. -/
def pyTruthy : PyVal → Bool
  | .vInt n => n != 0
  | .vStr s => s != ""
  | .vBool b => b
  | .vNone => false

/-- ASCII whitespace as matched by the Python str.strip default and by
the regex class backslash-s (the model restricts to the ASCII range). -/
def isPySpace (c : Char) : Bool :=
  c = ' ' || c = '\t' || c = '\n' || c = '\r' || c = Char.ofNat 11 || c = Char.ofNat 12

/-- Numeric value of a digit string. -/
def digitsVal (ds : List Char) : Int :=
  ds.foldl (fun a c => a * 10 + (Int.ofNat (c.toNat - 48))) 0

/-- The Python int(str) conversion: strip whitespace, optional sign,
then a nonempty run of decimal digits (digit-group underscores, accepted
by CPython, are not modelled; no claim depends on them). -/
def pyIntOfStr (s : String) : Option Int :=
  let cs := ((s.toList.dropWhile isPySpace).reverse.dropWhile isPySpace).reverse
  match cs with
  | '-' :: ds =>
    if !ds.isEmpty && ds.all Char.isDigit then some (-(digitsVal ds)) else none
  | '+' :: ds =>
    if !ds.isEmpty && ds.all Char.isDigit then some (digitsVal ds) else none
  | ds =>
    if !ds.isEmpty && ds.all Char.isDigit then some (digitsVal ds) else none

/-- The Python int(x) coercion on embedded scalars: ints pass through,
bools are subclasses of int, strings are parsed, None raises TypeError
(modelled as none). -/
def pyToInt : PyVal → Option Int
  | .vInt n => some n
  | .vBool b => some (if b then 1 else 0)
  | .vStr s => pyIntOfStr s
  | .vNone => none

/-- Is the stored value an actual integer (and not, say, a numeric
string)? -/
def isVInt : PyVal → Bool
  | .vInt _ => true
  | _ => false

/-- The fallback diagnosis returned by OpenAIClient._parse_response when
the body fails to parse as JSON. -/
def fallbackDiagnosis : PyObj :=
  [("suggested_fix", .vStr "Could not generate a suggestion (API response format error)"),
   ("confidence", .vInt 0),
   ("details", .vStr "")]

/-- One defaulting statement of _parse_response: assign a default when
the key is absent (if k not in response_data: response_data[k] = v). -/
def withDefault (d : PyObj) (k : String) (v : PyVal) : PyObj :=
  if hasKey d k then d else dictSet d k v

/-- The confidence-validation block of _parse_response: coerce with
int(); when the coerced value is outside [0, 100] assign the clamp
max(0, min(100, c)); when coercion raises ValueError or TypeError assign
50; otherwise leave the stored value untouched. -/
def validateConfidence (d : PyObj) : PyObj :=
  match dictGet d "confidence" with
  | none => d
  | some v =>
    match pyToInt v with
    | some c =>
      if c < 0 || c > 100 then dictSet d "confidence" (.vInt (max 0 (min 100 c)))
      else d
    | none => dictSet d "confidence" (.vInt 50)

/-- OpenAIClient._parse_response, over the decoded body: none stands for
a json.JSONDecodeError, some response_data for a decoded JSON object.
Mirrors the source statement sequence: default missing suggested_fix,
then missing confidence, then missing details, then validate
confidence. -/
def parse_response (decoded : Option PyObj) : PyObj :=
  match decoded with
  | none => fallbackDiagnosis
  | some response_data =>
    validateConfidence
      (withDefault
        (withDefault
          (withDefault response_data "suggested_fix" (.vStr "No specific suggestion available"))
          "confidence" (.vInt 50))
        "details" (.vStr ""))

/-- The response cache of OpenAIClient: key to parsed diagnosis, in
insertion order. -/
abbrev Cache := List (String × PyObj)

/-- OpenAIClient.cache_size_limit. -/
def cache_size_limit : Nat := 50

/-- OpenAIClient._update_cache with an explicit capacity: when the cache
has reached the capacity, delete the first-inserted entry
(next(iter(dict)) is the first key in insertion order), then assign the
new binding. -/
def update_cache (limit : Nat) (cache : Cache) (k : String) (v : PyObj) : Cache :=
  let cache1 := if cache.length ≥ limit then cache.tail else cache
  dictSet cache1 k v

/-- Character class of the regex [a-z_] under re.IGNORECASE (note the
IGNORECASE flag on the compiled patterns in both source files, which
makes the nominally lowercase classes accept capitals too). -/
def isEntChar (c : Char) : Bool :=
  ('a' ≤ c && c ≤ 'z') || ('A' ≤ c && c ≤ 'Z') || c = '_'

/-- Character class of the regex [a-z0-9_] under re.IGNORECASE. -/
def isEntChar2 (c : Char) : Bool :=
  isEntChar c || c.isDigit

/-- Case-insensitive literal prefix test (the word is given in
lowercase). -/
def ciPrefix : List Char → List Char → Bool
  | [], _ => true
  | _ :: _, [] => false
  | w :: ws, c :: cs => (c.toLower == w) && ciPrefix ws cs

/-- One attempted match of the entity regex ([a-z_]+\.[a-z0-9_]+) at the
head of the text.  The leading class cannot match a dot, so the greedy
run followed by a literal-dot check is exact backtracking semantics.
Returns the matched token and the remainder of the text. -/
def entityMatchAt (cs : List Char) : Option (List Char × List Char) :=
  let r1 := cs.takeWhile isEntChar
  if r1.isEmpty then none
  else
    match cs.drop r1.length with
    | '.' :: rest2 =>
      let r2 := rest2.takeWhile isEntChar2
      if r2.isEmpty then none
      else some (r1 ++ '.' :: r2, rest2.drop r2.length)
    | _ => none

/-- re.findall scanning loop for the entity pattern: leftmost,
non-overlapping, advancing one character on a failed attempt.  The fuel
starts at the text length and cannot run out because every step consumes
at least one character. -/
def entityFindallGo : Nat → List Char → List (List Char)
  | 0, _ => []
  | _, [] => []
  | fuel + 1, c :: rest =>
    match entityMatchAt (c :: rest) with
    | some (m, rem) => m :: entityFindallGo fuel rem
    | none => entityFindallGo fuel rest

/-- findall of the compiled _entity_id_pattern over a snippet. -/
def entityFindall (s : String) : List String :=
  (entityFindallGo s.length s.toList).map List.asString

/-- The keyword alternation (component|integration|platform) of the
compiled _component_pattern, tried in source order, case-insensitively;
returns the length of the matched keyword. -/
def componentKeyword (cs : List Char) : Option Nat :=
  if ciPrefix ("component".toList) cs then some 9
  else if ciPrefix ("integration".toList) cs then some 11
  else if ciPrefix ("platform".toList) cs then some 8
  else none

/-- One attempted match of (component|integration|platform) ([a-z_]+)
at the head of the text; the source keeps only the second capture group
(the name), which is what is returned. -/
def componentMatchAt (cs : List Char) : Option (List Char × List Char) :=
  match componentKeyword cs with
  | none => none
  | some k =>
    match cs.drop k with
    | ' ' :: rest =>
      let name := rest.takeWhile isEntChar
      if name.isEmpty then none
      else some (name, rest.drop name.length)
    | _ => none

/-- Scanning loop for the component pattern. -/
def componentFindallGo : Nat → List Char → List (List Char)
  | 0, _ => []
  | _, [] => []
  | fuel + 1, c :: rest =>
    match componentMatchAt (c :: rest) with
    | some (m, rem) => m :: componentFindallGo fuel rem
    | none => componentFindallGo fuel rest

/-- findall of _component_pattern, already projected to the captured
name as the source list comprehension does. -/
def componentFindall (s : String) : List String :=
  (componentFindallGo s.length s.toList).map List.asString

/-- One attempted match of service ([a-z_]+\.[a-z_]+) at the head of the
text (note: no digits in either class); returns the captured dotted
token. -/
def serviceMatchAt (cs : List Char) : Option (List Char × List Char) :=
  if ciPrefix ("service ".toList) cs then
    let rest := cs.drop 8
    let r1 := rest.takeWhile isEntChar
    if r1.isEmpty then none
    else
      match rest.drop r1.length with
      | '.' :: rest2 =>
        let r2 := rest2.takeWhile isEntChar
        if r2.isEmpty then none
        else some (r1 ++ '.' :: r2, rest2.drop r2.length)
      | _ => none
  else none

/-- Scanning loop for the service pattern. -/
def serviceFindallGo : Nat → List Char → List (List Char)
  | 0, _ => []
  | _, [] => []
  | fuel + 1, c :: rest =>
    match serviceMatchAt (c :: rest) with
    | some (m, rem) => m :: serviceFindallGo fuel rem
    | none => serviceFindallGo fuel rest

/-- findall of _service_pattern. -/
def serviceFindall (s : String) : List String :=
  (serviceFindallGo s.length s.toList).map List.asString

/-- The keyword alternation (Error|Exception|Failed|WARNING|ERROR) of
the cache-key error pattern, case-insensitive (the fifth alternative is
subsumed by the first under IGNORECASE); returns the matched length. -/
def errorKeyword (cs : List Char) : Option Nat :=
  if ciPrefix ("error".toList) cs then some 5
  else if ciPrefix ("exception".toList) cs then some 9
  else if ciPrefix ("failed".toList) cs then some 6
  else if ciPrefix ("warning".toList) cs then some 7
  else none

/-- One attempted match of the cache-key error pattern
(Error|Exception|Failed|WARNING|ERROR).*?(?=\n|$) at the head of the
text.  findall yields the single capture group, i.e. just the keyword as
it appears in the text; the lazy tail consumes up to the next newline or
the end and only affects where scanning resumes. -/
def errorMatchAt (cs : List Char) : Option (List Char × List Char) :=
  match errorKeyword cs with
  | none => none
  | some k =>
    let lineRest := (cs.drop k).takeWhile (fun c => c != '\n')
    some (cs.take k, (cs.drop k).drop lineRest.length)

/-- Scanning loop for the error pattern. -/
def errorFindallGo : Nat → List Char → List (List Char)
  | 0, _ => []
  | _, [] => []
  | fuel + 1, c :: rest =>
    match errorMatchAt (c :: rest) with
    | some (m, rem) => m :: errorFindallGo fuel rem
    | none => errorFindallGo fuel rest

/-- findall of the cache-key error pattern. -/
def errorFindall (s : String) : List String :=
  (errorFindallGo s.length s.toList).map List.asString

/-- OpenAIClient._generate_cache_key: the issue type, the first two
error keywords and the first three entity ids, joined with a vertical
bar (the two conditional extends are unconditional take-prefixes). -/
def generate_cache_key (log_text issue_type : String) : String :=
  let errors := errorFindall log_text
  let entities := entityFindall log_text
  let key_parts := [issue_type] ++ errors.take 2 ++ entities.take 3
  String.intercalate "|" key_parts

/-- OpenAIClient.analyze_log over the external decoder and transport.
Returns the analyzer result (none = absent) and the cache after the
call.  The metadata argument of the source only feeds the prompt, which
the abstract transport already absorbs. -/
def analyze_log (decode : String → Option PyObj) (api : String → String → Option String)
    (cache : Cache) (log_text issue_type : String) : Option PyObj × Cache :=
  let cache_key := generate_cache_key log_text issue_type
  match dictGet cache cache_key with
  | some v => (some v, cache)
  | none =>
    match api log_text issue_type with
    | none => (none, cache)
    | some body =>
      let parsed := parse_response (decode body)
      let cache2 :=
        if !parsed.isEmpty && pyTruthy (dictGetD parsed "suggested_fix" .vNone) then
          update_cache cache_size_limit cache cache_key parsed
        else cache
      (some parsed, cache2)

/-- Python slice s[a:b] on a string, in characters. -/
def pySlice (s : String) (a b : Nat) : List Char :=
  (s.toList.drop a).take (b - a)

/-- LogMonitor._is_similar_entry: exact equality when either string has
fewer than 20 characters, otherwise equality of the slices [20:100]. -/
def is_similar_entry (entry1 entry2 : String) : Bool :=
  if entry1.length < 20 || entry2.length < 20 then entry1 == entry2
  else pySlice entry1 20 100 == pySlice entry2 20 100

/-- The context window computed inside LogMonitor._find_matching_entries
for one matching entry: locate the first occurrence of the entry value
(list.index), clip a window of two entries before and two after, and
join with newlines.  Nat subtraction makes entry_index - 2 the source
max(0, entry_index - 2). -/
def contextOf (log_entries : List String) (entry : String) : String :=
  let entry_index := log_entries.indexOf entry
  let start_idx := entry_index - 2
  let end_idx := min log_entries.length (entry_index + 3)
  String.intercalate "\n" ((log_entries.drop start_idx).take (end_idx - start_idx))

/-- LogMonitor._find_matching_entries for one issue pattern, with the
compiled regex search abstracted to a Boolean matcher.  The source
except-ValueError branch is dead code: list.index is applied to an
element of the list being iterated, so it always succeeds; the model
therefore has no exceptional branch. -/
def find_matching_entries (pattern : String → Bool) (log_entries : List String) : List String :=
  log_entries.foldl
    (fun matching_entries entry =>
      if pattern entry then
        let context := contextOf log_entries entry
        if matching_entries.any (fun existing => is_similar_entry context existing) then
          matching_entries
        else matching_entries ++ [context]
      else matching_entries)
    []

/-- Does the text start with the 19-character timestamp prefix
YYYY-MM-DD hh:mm:ss of the entry-segmentation regex (backslash-d{4}-
backslash-d{2}-backslash-d{2} backslash-s backslash-d{2}: and so on)? -/
def tsAt : List Char → Bool
  | c1 :: c2 :: c3 :: c4 :: d1 :: c5 :: c6 :: d2 :: c7 :: c8 :: w1 ::
    c9 :: c10 :: p1 :: c11 :: c12 :: p2 :: c13 :: c14 :: _ =>
    c1.isDigit && c2.isDigit && c3.isDigit && c4.isDigit && d1 = '-' &&
    c5.isDigit && c6.isDigit && d2 = '-' && c7.isDigit && c8.isDigit &&
    isPySpace w1 && c9.isDigit && c10.isDigit && p1 = ':' &&
    c11.isDigit && c12.isDigit && p2 = ':' && c13.isDigit && c14.isDigit
  | _ => false

/-- Offset of the leftmost timestamp-prefix match, if any. -/
def findTSIdx : List Char → Option Nat
  | [] => none
  | c :: rest =>
    if tsAt (c :: rest) then some 0
    else (findTSIdx rest).map (· + 1)

/-- Length consumed by the lazy tail .*? under re.DOTALL before the
lookahead (?=timestamp|$) succeeds: the smallest offset at which either
another timestamp starts, or the text ends, or only the final newline of
the whole input remains (a dollar without re.MULTILINE also matches just
before a trailing newline). -/
def lazyStop : List Char → Nat
  | [] => 0
  | c :: rest =>
    if tsAt (c :: rest) || (c = '\n' && rest.isEmpty) then 0
    else 1 + lazyStop rest

/-- findall of the entry-segmentation regex: repeatedly find the next
timestamp start and extend lazily to just before the following timestamp
(or the end).  Each match consumes at least 19 characters, so fuel equal
to the text length never runs out. -/
def segGo : Nat → List Char → List (List Char)
  | 0, _ => []
  | fuel + 1, cs =>
    match findTSIdx cs with
    | none => []
    | some i =>
      let rest := cs.drop i
      let stop := 19 + lazyStop (rest.drop 19)
      rest.take stop :: segGo fuel (rest.drop stop)

/-- The timestamp-based segmentation of LogMonitor._identify_potential_issues. -/
def segmentTS (log_text : String) : List String :=
  (segGo log_text.length log_text.toList).map List.asString

/-- Entry segmentation with the source fallback: when the timestamp
regex finds nothing, split on blank-line separators (str.split keeps
empty pieces, as String.splitOn does). -/
def segmentEntries (log_text : String) : List String :=
  let log_entries := segmentTS log_text
  if log_entries.isEmpty then log_text.splitOn "\n\n" else log_entries

/-- Deduplication used to model list(set(xs)): CPython set iteration
order is unspecified, so the model fixes one canonical order (keep the
last occurrence); every stated property of the result is order
insensitive (membership and nodup). -/
def pySetList : List String → List String
  | [] => []
  | x :: xs => if x ∈ xs then pySetList xs else x :: pySetList xs

/-- Extracted context for one snippet (LogMonitor._extract_metadata
result shape). -/
structure IssueMetadata where
  issue_type : String
  entities : List String
  components : List String
  services : List String
deriving DecidableEq, Repr

/-- LogMonitor._extract_metadata: findall each of the three compiled
patterns over the snippet and deduplicate via set (the conditional
assignments are identity on empty findall results). -/
def extract_metadata (log_snippet issue_type : String) : IssueMetadata :=
  { issue_type := issue_type
    entities := pySetList (entityFindall log_snippet)
    components := pySetList (componentFindall log_snippet)
    services := pySetList (serviceFindall log_snippet) }

/-- LogMonitor._identify_potential_issues: segment the new text, match
every configured pattern (the per-category regex search is the injected
Boolean matcher), and keep only categories with a nonempty result, in
pattern-dictionary order (asyncio.gather preserves task order). -/
def identify_potential_issues (patterns : List (String × (String → Bool)))
    (log_text : String) : List (String × List String) :=
  let log_entries := segmentEntries log_text
  (patterns.map (fun p => (p.1, find_matching_entries p.2 log_entries))).filter
    (fun r => !r.2.isEmpty)

/-- One confirmed diagnosis as appended to LogMonitor.issues (the
detected_at wall-clock field is outside the model). -/
structure Issue where
  issue_type : String
  log_snippet : String
  suggested_fix : PyVal
  confidence : PyVal
  details : PyVal
  metadata : IssueMetadata
deriving DecidableEq, Repr

/-- The mutable state of a LogMonitor (with the embedded client cache). -/
structure MonState where
  lastPosition : Nat
  issues : List Issue
  cache : Cache
deriving DecidableEq, Repr

/-- The body of the per-snippet step inside LogMonitor.analyze_logs:
extract metadata, run the analyzer, and append an Issue when the result
carries a truthy suggested_fix. -/
def processSnippet (decode : String → Option PyObj) (api : String → String → Option String)
    (issue_type : String) (st : MonState) (snippet : String) : MonState :=
  let metadata := extract_metadata snippet issue_type
  let r := analyze_log decode api st.cache snippet issue_type
  let st1 := { st with cache := r.2 }
  match r.1 with
  | none => st1
  | some analysis =>
    if !analysis.isEmpty && pyTruthy (dictGetD analysis "suggested_fix" .vNone) then
      { st1 with issues := st1.issues ++
          [{ issue_type := issue_type
             log_snippet := snippet
             suggested_fix := dictGetD analysis "suggested_fix" .vNone
             confidence := dictGetD analysis "confidence" (.vInt 0)
             details := dictGetD analysis "details" (.vStr "")
             metadata := metadata }] }
    else st1

/-- LogMonitor.analyze_logs for an existing file whose current content
is given: rotation check, no-new-data early return, read of the byte
range [cursor, size), cursor advance, candidate extraction, and the
per-category loop capped at 5 snippets.  Besides the final state the
model exposes the text that was read and the candidate mapping (both
empty on the early return). -/
def analyze_logs (patterns : List (String × (String → Bool)))
    (decode : String → Option PyObj) (api : String → String → Option String)
    (content : List Char) (st : MonState) :
    MonState × String × List (String × List String) :=
  let current_size := content.length
  let pos := if current_size < st.lastPosition then 0 else st.lastPosition
  if current_size == pos then ({ st with lastPosition := pos }, "", [])
  else
    let new_logs := List.asString (content.drop pos)
    let st1 := { st with lastPosition := current_size }
    let potential := identify_potential_issues patterns new_logs
    let final := potential.foldl
      (fun acc tc => (tc.2.take 5).foldl (processSnippet decode api tc.1) acc) st1
    (final, new_logs, potential)

/-- LogMonitor.get_issues: filter by a truthy issue type, then keep the
tail of a truthy positive limit. -/
def get_issues (issues : List Issue) (limit : Option Int) (issue_type : Option String) :
    List Issue :=
  let filtered :=
    match issue_type with
    | some t => if t != "" then issues.filter (fun i => i.issue_type == t) else issues
    | none => issues
  match limit with
  | some l =>
    if l != 0 && l > 0 then filtered.drop (filtered.length - l.toNat) else filtered
  | none => filtered

/-- What the remote completion endpoint does on one attempt: a
successful HTTP exchange carrying an optional body (none models missing
choices or a None content), a rate-limit error, a transient API or
connection error, or any other raised error. -/
inductive ApiOutcome where
  | success : Option String → ApiOutcome
  | rateLimit : ApiOutcome
  | apiError : ApiOutcome
  | otherError : ApiOutcome
deriving DecidableEq, Repr

/-- max_retries in OpenAIClient._call_openai_api. -/
def max_retries : Nat := 3

/-- retry_delay (seconds) in OpenAIClient._call_openai_api. -/
def retry_delay : Nat := 2

/-- Observable outcome of one _call_openai_api invocation: the returned
body (none both for a raised-then-swallowed error and for an empty
body), the sleeps performed (seconds, in order), and how many attempts
were made. -/
structure CallResult where
  result : Option String
  delays : List Nat
  attempts : Nat
deriving DecidableEq, Repr

/-- The retry loop of OpenAIClient._call_openai_api.  The first argument
is the current attempt index, the second the number of loop iterations
remaining (the caller keeps remaining = max_retries - attempt, matching
for attempt in range(max_retries)).  An empty body returns None without
raising; a rate-limit or API/connection error before the last attempt
sleeps retry_delay * 2 ^ attempt and retries; on the last attempt it
re-raises, which the outer except turns into None; any other error
propagates immediately to the outer except, yielding None. -/
def callLoop (outcomes : Nat → ApiOutcome) : Nat → Nat → CallResult
  | attempt, 0 => ⟨none, [], attempt⟩
  | attempt, remaining + 1 =>
    match outcomes attempt with
    | .success content =>
      match content with
      | some c => if c = "" then ⟨none, [], attempt + 1⟩ else ⟨some c, [], attempt + 1⟩
      | none => ⟨none, [], attempt + 1⟩
    | .rateLimit =>
      if attempt < max_retries - 1 then
        let wait_time := retry_delay * 2 ^ attempt
        let r := callLoop outcomes (attempt + 1) remaining
        ⟨r.result, wait_time :: r.delays, r.attempts⟩
      else ⟨none, [], attempt + 1⟩
    | .apiError =>
      if attempt < max_retries - 1 then
        let wait_time := retry_delay * 2 ^ attempt
        let r := callLoop outcomes (attempt + 1) remaining
        ⟨r.result, wait_time :: r.delays, r.attempts⟩
      else ⟨none, [], attempt + 1⟩
    | .otherError => ⟨none, [], attempt + 1⟩

/-- OpenAIClient._call_openai_api as observed from outside. -/
def call_openai_api (outcomes : Nat → ApiOutcome) : CallResult :=
  callLoop outcomes 0 max_retries

/-- A transient outcome in the source taxonomy: RateLimitError, or
APIError / APIConnectionError. -/
def ApiOutcome.transient : ApiOutcome → Prop
  | .rateLimit => True
  | .apiError => True
  | _ => False

instance : DecidablePred ApiOutcome.transient := by
  intro o
  cases o <;> simp [ApiOutcome.transient] <;> infer_instance

/-- Shape of a token produced by the entity pattern: a nonempty run of
letters or underscores, a dot, then a nonempty run of letters, digits or
underscores reaching the end of the token. -/
def entityShape (s : String) : Bool :=
  let cs := s.toList
  let r1 := cs.takeWhile isEntChar
  match cs.drop r1.length with
  | '.' :: rest => !r1.isEmpty && !rest.isEmpty && rest.all isEntChar2
  | _ => false

/-- Shape of a captured component name: nonempty, letters or
underscores only. -/
def componentShape (s : String) : Bool :=
  !s.toList.isEmpty && s.toList.all isEntChar

/-- Shape of a token produced by the service pattern: a nonempty run of
letters or underscores, a dot, then a nonempty such run to the end (no
digits on either side). -/
def serviceShape (s : String) : Bool :=
  let cs := s.toList
  let r1 := cs.takeWhile isEntChar
  match cs.drop r1.length with
  | '.' :: rest => !r1.isEmpty && !rest.isEmpty && rest.all isEntChar
  | _ => false

/-- Is every character of the token lowercase-or-nonletter, i.e. is the
token a lowercase dotted identifier as the specification words it? -/
def isLowercaseToken (s : String) : Bool :=
  s.toList.all (fun c => !('A' ≤ c && c ≤ 'Z'))

/-- A sequence of put operations on an initially empty response cache
(the cache starts empty in OpenAIClient.__init__ and is mutated only by
_update_cache). -/
def cacheFold (puts : List (String × PyObj)) : Cache :=
  puts.foldl (fun c kv => update_cache cache_size_limit c kv.1 kv.2) []

theorem callLoop_attempts_le (o : Nat → ApiOutcome) :
    ∀ remaining attempt, (callLoop o attempt remaining).attempts ≤ attempt + remaining := by
  intro remaining
  induction remaining with
  | zero => intro a; simp [callLoop]
  | succ n ih =>
    intro a
    simp only [callLoop]
    cases h : o a with
    | success c =>
      cases c with
      | some s =>
        by_cases hs : s = "" <;> simp [hs]
      | none => simp
    | rateLimit =>
      by_cases ha : a < max_retries - 1
      · simp only [ha, if_true]
        have := ih (a + 1)
        omega
      · simp only [ha, if_false]
        omega
    | apiError =>
      by_cases ha : a < max_retries - 1
      · simp only [ha, if_true]
        have := ih (a + 1)
        omega
      · simp only [ha, if_false]
        omega
    | otherError => simp

theorem transient_cases (a : ApiOutcome) (h : a.transient) :
    a = .rateLimit ∨ a = .apiError := by
  cases a <;> simp [ApiOutcome.transient] at h ⊢

/-- C1: the remote-analysis call makes at most 3 attempts in total; a
rate-limit or transient API error before the last attempt delays 2
seconds before the second attempt and 4 seconds before the third
(exponential backoff starting at 2s); two transient errors followed by a
nonempty success return that body after exactly the delays [2, 4]; any
other kind of error is not retried and yields an absent result with no
further attempts; exhausting all 3 attempts yields absent; and an empty
completion body is a failed call returning absent, not an exception. -/
theorem call_retry_policy (o : Nat → ApiOutcome) :
    (call_openai_api o).attempts ≤ 3 ∧
    ((o 0).transient → (call_openai_api o).delays.head? = some 2) ∧
    ((o 0).transient → (o 1).transient → (call_openai_api o).delays = [2, 4]) ∧
    (∀ s : String, (o 0).transient → (o 1).transient → o 2 = .success (some s) → s ≠ "" →
      (call_openai_api o).result = some s ∧ (call_openai_api o).attempts = 3) ∧
    ((o 0).transient → (o 1).transient → (o 2).transient →
      (call_openai_api o).result = none ∧ (call_openai_api o).attempts = 3) ∧
    (∀ k, k < 3 → (∀ j, j < k → (o j).transient) → o k = .otherError →
      (call_openai_api o).result = none ∧ (call_openai_api o).attempts = k + 1) ∧
    (∀ k, k < 3 → (∀ j, j < k → (o j).transient) → o k = .success none →
      (call_openai_api o).result = none ∧ (call_openai_api o).attempts = k + 1) ∧
    ((o 0).transient → (o 1).transient → o 2 = .success (some "") →
      (call_openai_api o).result = none ∧ (call_openai_api o).attempts = 3) := by
  refine ⟨?_, ?_, ?_, ?_, ?_, ?_, ?_, ?_⟩
  · have := callLoop_attempts_le o 3 0
    simpa [call_openai_api, max_retries] using this
  · intro h0
    rcases transient_cases _ h0 with h | h <;>
      simp [call_openai_api, max_retries, callLoop, h, retry_delay]
  · intro h0 h1
    rcases transient_cases _ h0 with h | h <;>
      rcases transient_cases _ h1 with h' | h' <;>
      simp [call_openai_api, max_retries, callLoop, h, h', retry_delay] <;>
      rcases h2 : o 2 with c | _ | _ | _ <;> simp [h2] <;>
      rcases c with _ | s <;> simp <;>
      by_cases hs : s = "" <;> simp [hs]
  · intro s h0 h1 h2 hs
    rcases transient_cases _ h0 with h | h <;>
      rcases transient_cases _ h1 with h' | h' <;>
      simp [call_openai_api, max_retries, callLoop, h, h', h2, hs]
  · intro h0 h1 h2
    rcases transient_cases _ h0 with h | h <;>
      rcases transient_cases _ h1 with h' | h' <;>
      rcases transient_cases _ h2 with h'' | h'' <;>
      simp [call_openai_api, max_retries, callLoop, h, h', h'']
  · intro k hk hj hk'
    interval_cases k
    · simp [call_openai_api, max_retries, callLoop, hk']
    · rcases transient_cases _ (hj 0 (by omega)) with h | h <;>
        simp [call_openai_api, max_retries, callLoop, h, hk']
    · rcases transient_cases _ (hj 0 (by omega)) with h | h <;>
        rcases transient_cases _ (hj 1 (by omega)) with h' | h' <;>
        simp [call_openai_api, max_retries, callLoop, h, h', hk']
  · intro k hk hj hk'
    interval_cases k
    · simp [call_openai_api, max_retries, callLoop, hk']
    · rcases transient_cases _ (hj 0 (by omega)) with h | h <;>
        simp [call_openai_api, max_retries, callLoop, h, hk']
    · rcases transient_cases _ (hj 0 (by omega)) with h | h <;>
        rcases transient_cases _ (hj 1 (by omega)) with h' | h' <;>
        simp [call_openai_api, max_retries, callLoop, h, h', hk']
  · intro h0 h1 h2
    rcases transient_cases _ h0 with h | h <;>
      rcases transient_cases _ h1 with h' | h' <;>
      simp [call_openai_api, max_retries, callLoop, h, h', h2]

/-- Witness for C1: a service that rate-limits, then errors transiently,
then succeeds, makes exactly 3 attempts, sleeps 2s then 4s, and returns
the successful body. -/
theorem call_retry_policy_witness :
    (call_openai_api (fun n => match n with
      | 0 => ApiOutcome.rateLimit
      | 1 => ApiOutcome.apiError
      | _ => ApiOutcome.success (some "ok"))).delays = [2, 4] ∧
    (call_openai_api (fun n => match n with
      | 0 => ApiOutcome.rateLimit
      | 1 => ApiOutcome.apiError
      | _ => ApiOutcome.success (some "ok"))).result = some "ok" ∧
    (call_openai_api (fun n => match n with
      | 0 => ApiOutcome.rateLimit
      | 1 => ApiOutcome.apiError
      | _ => ApiOutcome.success (some "ok"))).attempts = 3 := by
  have h := (call_retry_policy (fun n => match n with
      | 0 => ApiOutcome.rateLimit
      | 1 => ApiOutcome.apiError
      | _ => ApiOutcome.success (some "ok"))).2.2.2.1 "ok" trivial trivial rfl (by decide)
  exact ⟨(call_retry_policy (fun n => match n with
      | 0 => ApiOutcome.rateLimit
      | 1 => ApiOutcome.apiError
      | _ => ApiOutcome.success (some "ok"))).2.2.1 trivial trivial, h.1, h.2⟩

theorem dictGet_nil {α : Type} (k : String) : dictGet ([] : List (String × α)) k = none := by
  simp [dictGet]

theorem dictGet_cons {α : Type} (kv : String × α) (rest : List (String × α)) (k : String) :
    dictGet (kv :: rest) k = if kv.1 = k then some kv.2 else dictGet rest k := by
  by_cases h : kv.1 = k
  · simp [dictGet, List.find?_cons_of_pos, h]
  · have : (kv.1 == k) = false := by simp [h]
    simp [dictGet, List.find?_cons_of_neg, this, h]

theorem dictGet_dictSet {α : Type} (d : List (String × α)) (k k' : String) (v : α) :
    dictGet (dictSet d k v) k' = if k = k' then some v else dictGet d k' := by
  induction d with
  | nil => simp [dictSet, dictGet_cons, dictGet_nil]
  | cons kv rest ih =>
    simp only [dictSet]
    by_cases hk : kv.1 = k
    · simp only [hk, beq_self_eq_true, if_true]
      rw [dictGet_cons, dictGet_cons]
      by_cases h : k = k'
      · simp [h]
      · have hne : ¬ kv.1 = k' := by rw [hk]; exact h
        simp [h, hne]
    · have : (kv.1 == k) = false := by simp [hk]
      simp only [this, Bool.false_eq_true, if_false]
      rw [dictGet_cons, dictGet_cons, ih]
      by_cases h1 : kv.1 = k' <;> by_cases h2 : k = k' <;> simp [h1, h2]
      exact absurd (h2 ▸ h1) hk

theorem hasKey_eq_isSome {α : Type} (d : List (String × α)) (k : String) :
    hasKey d k = (dictGet d k).isSome := by
  simp only [hasKey, dictGet]
  rcases h : d.find? (fun kv => kv.1 == k) with _ | kv <;> simp [h]

theorem dictGet_eq_none_of_hasKey_false {α : Type} (d : List (String × α)) (k : String)
    (h : hasKey d k = false) : dictGet d k = none := by
  rw [hasKey_eq_isSome] at h
  rcases hd : dictGet d k with _ | v
  · rfl
  · rw [hd] at h; simp at h

theorem hasKey_dictSet {α : Type} (d : List (String × α)) (k k' : String) (v : α) :
    hasKey (dictSet d k v) k' = (decide (k = k') || hasKey d k') := by
  rw [hasKey_eq_isSome, hasKey_eq_isSome, dictGet_dictSet]
  by_cases h : k = k' <;> simp [h]

theorem dictGet_withDefault_same (d : PyObj) (k : String) (v : PyVal) :
    dictGet (withDefault d k v) k = some (dictGetD d k v) := by
  unfold withDefault dictGetD
  by_cases h : hasKey d k
  · rw [if_pos h]
    rw [hasKey_eq_isSome] at h
    rcases hd : dictGet d k with _ | w
    · rw [hd] at h; simp at h
    · rfl
  · rw [if_neg h, dictGet_dictSet, if_pos rfl]
    rw [dictGet_eq_none_of_hasKey_false]
    simpa using h

theorem dictGet_withDefault_ne (d : PyObj) (k k' : String) (v : PyVal) (h : ¬ k = k') :
    dictGet (withDefault d k v) k' = dictGet d k' := by
  unfold withDefault
  split
  · rfl
  · rw [dictGet_dictSet, if_neg h]

theorem hasKey_withDefault_ne (d : PyObj) (k k' : String) (v : PyVal) (h : ¬ k = k') :
    hasKey (withDefault d k v) k' = hasKey d k' := by
  rw [hasKey_eq_isSome, hasKey_eq_isSome, dictGet_withDefault_ne _ _ _ _ h]

theorem dictGet_validateConfidence_ne (d : PyObj) (k' : String) (h : ¬ "confidence" = k') :
    dictGet (validateConfidence d) k' = dictGet d k' := by
  unfold validateConfidence
  rcases hcv : dictGet d "confidence" with _ | v
  · rfl
  · rcases hpi : pyToInt v with _ | c
    · simp only [hpi]
      rw [dictGet_dictSet, if_neg h]
    · simp only [hpi]
      split
      · rw [dictGet_dictSet, if_neg h]
      · rfl

theorem dictGet_validateConfidence (d : PyObj) (v : PyVal)
    (h : dictGet d "confidence" = some v) :
    dictGet (validateConfidence d) "confidence" =
      match pyToInt v with
      | some c =>
        if c < 0 || c > 100 then some (.vInt (max 0 (min 100 c))) else some v
      | none => some (.vInt 50) := by
  unfold validateConfidence
  rw [h]
  rcases hpi : pyToInt v with _ | c <;> simp only [hpi]
  · rw [dictGet_dictSet, if_pos rfl]
  · split
    · rw [dictGet_dictSet, if_pos rfl]
    · exact h

theorem parse_sf_char (d : PyObj) :
    dictGet (parse_response (some d)) "suggested_fix" =
      some (dictGetD d "suggested_fix" (.vStr "No specific suggestion available")) := by
  unfold parse_response
  rw [dictGet_validateConfidence_ne _ _ (by decide),
      dictGet_withDefault_ne _ _ _ _ (by decide),
      dictGet_withDefault_ne _ _ _ _ (by decide),
      dictGet_withDefault_same]

theorem parse_details_char (d : PyObj) :
    dictGet (parse_response (some d)) "details" =
      some (dictGetD d "details" (.vStr "")) := by
  unfold parse_response
  rw [dictGet_validateConfidence_ne _ _ (by decide), dictGet_withDefault_same]
  unfold dictGetD
  rw [dictGet_withDefault_ne _ _ _ _ (by decide), dictGet_withDefault_ne _ _ _ _ (by decide)]

theorem parse_conf_char (d : PyObj) :
    dictGet (parse_response (some d)) "confidence" =
      match pyToInt (dictGetD d "confidence" (.vInt 50)) with
      | some c =>
        if c < 0 || c > 100 then some (.vInt (max 0 (min 100 c)))
        else some (dictGetD d "confidence" (.vInt 50))
      | none => some (.vInt 50) := by
  unfold parse_response
  have h1 : dictGet (withDefault (withDefault (withDefault d "suggested_fix"
      (.vStr "No specific suggestion available")) "confidence" (.vInt 50)) "details"
      (.vStr "")) "confidence" = some (dictGetD d "confidence" (.vInt 50)) := by
    rw [dictGet_withDefault_ne _ _ _ _ (by decide), dictGet_withDefault_same]
    unfold dictGetD
    rw [dictGet_withDefault_ne _ _ _ _ (by decide)]
  rw [dictGet_validateConfidence _ _ h1]

/-- C2 (amended): missing suggested_fix defaults to the fixed
placeholder, missing details to the empty string, missing confidence to
50; a confidence whose integer coercion fails is replaced by 50; a
coerced value outside [0,100] is replaced by the clamp; a coerced value
inside [0,100] leaves the stored value unchanged (so it need not itself
be an integer); and the integer coercion of the stored confidence always
lies in [0,100]. -/
theorem parse_response_repair (d : PyObj) :
    (hasKey d "suggested_fix" = false →
      dictGet (parse_response (some d)) "suggested_fix" =
        some (.vStr "No specific suggestion available")) ∧
    (hasKey d "details" = false →
      dictGet (parse_response (some d)) "details" = some (.vStr "")) ∧
    (hasKey d "confidence" = false →
      dictGet (parse_response (some d)) "confidence" = some (.vInt 50)) ∧
    (∀ v, dictGet d "confidence" = some v → pyToInt v = none →
      dictGet (parse_response (some d)) "confidence" = some (.vInt 50)) ∧
    (∀ v c, dictGet d "confidence" = some v → pyToInt v = some c → (c < 0 ∨ 100 < c) →
      dictGet (parse_response (some d)) "confidence" = some (.vInt (max 0 (min 100 c)))) ∧
    (∀ v c, dictGet d "confidence" = some v → pyToInt v = some c → 0 ≤ c → c ≤ 100 →
      dictGet (parse_response (some d)) "confidence" = some v) ∧
    (∃ c : Int, (dictGet (parse_response (some d)) "confidence").bind pyToInt = some c ∧
      0 ≤ c ∧ c ≤ 100) := by
  refine ⟨?_, ?_, ?_, ?_, ?_, ?_, ?_⟩
  · intro h
    rw [parse_sf_char]
    unfold dictGetD
    rw [dictGet_eq_none_of_hasKey_false _ _ h]
  · intro h
    rw [parse_details_char]
    unfold dictGetD
    rw [dictGet_eq_none_of_hasKey_false _ _ h]
  · intro h
    rw [parse_conf_char]
    unfold dictGetD
    rw [dictGet_eq_none_of_hasKey_false _ _ h]
    norm_num [pyToInt]
  · intro v hv hpy
    rw [parse_conf_char]
    unfold dictGetD
    rw [hv]
    simp [hpy]
  · intro v c hv hpy hr
    rw [parse_conf_char]
    unfold dictGetD
    rw [hv]
    simp only [hpy]
    rw [if_pos]
    rcases hr with h | h <;> simp [h]
  · intro v c hv hpy h0 h100
    rw [parse_conf_char]
    unfold dictGetD
    rw [hv]
    simp only [hpy]
    rw [if_neg]
    simp
    omega
  · rcases hv : dictGet d "confidence" with _ | v
    · refine ⟨50, ?_, by norm_num, by norm_num⟩
      rw [parse_conf_char]
      unfold dictGetD
      rw [hv]
      norm_num [pyToInt]
    · rcases hpy : pyToInt v with _ | c
      · refine ⟨50, ?_, by norm_num, by norm_num⟩
        rw [parse_conf_char]
        unfold dictGetD
        rw [hv]
        simp only [hpy]
        rfl
      · by_cases hr : c < 0 ∨ 100 < c
        · refine ⟨max 0 (min 100 c), ?_, by omega, by omega⟩
          rw [parse_conf_char]
          unfold dictGetD
          rw [hv]
          simp only [hpy]
          rw [if_pos]
          · simp [pyToInt]
          · rcases hr with h | h <;> simp [h]
        · refine ⟨c, ?_, by omega, by omega⟩
          rw [parse_conf_char]
          unfold dictGetD
          rw [hv]
          simp only [hpy]
          rw [if_neg]
          · simp [hpy]
          · simp
            omega

/-- Counterexample for C2: a decoded response whose confidence is the
string "42" (integer-coercible and in range) keeps the string verbatim,
so the stored confidence is not always an integer. -/
theorem parse_response_confidence_counterexample :
    dictGet (parse_response (some [("suggested_fix", PyVal.vStr "x"),
        ("details", PyVal.vStr ""), ("confidence", PyVal.vStr "42")])) "confidence" =
      some (PyVal.vStr "42") ∧
    isVInt (PyVal.vStr "42") = false := by
  exact ⟨rfl, rfl⟩

/-- Witness for C2: confidence -5 is stored as 0, 150 as 100, "abc" as
50, missing as 50, and a present suggested_fix is kept. -/
theorem parse_response_repair_witness :
    dictGet (parse_response (some [("confidence", PyVal.vInt (-5))])) "confidence" =
        some (PyVal.vInt 0) ∧
    dictGet (parse_response (some [("confidence", PyVal.vInt 150)])) "confidence" =
        some (PyVal.vInt 100) ∧
    dictGet (parse_response (some [("confidence", PyVal.vStr "abc")])) "confidence" =
        some (PyVal.vInt 50) ∧
    dictGet (parse_response (some [("suggested_fix", PyVal.vStr "x")])) "confidence" =
        some (PyVal.vInt 50) ∧
    dictGet (parse_response (some [("suggested_fix", PyVal.vStr "x")])) "suggested_fix" =
        some (PyVal.vStr "x") := by
  have h1 := (parse_response_repair [("confidence", PyVal.vInt (-5))]).2.2.2.2.1
    (PyVal.vInt (-5)) (-5) rfl rfl (by norm_num)
  have h2 := (parse_response_repair [("confidence", PyVal.vInt 150)]).2.2.2.2.1
    (PyVal.vInt 150) 150 rfl rfl (by norm_num)
  have h3 := (parse_response_repair [("confidence", PyVal.vStr "abc")]).2.2.2.1
    (PyVal.vStr "abc") rfl (by rfl)
  have h4 := (parse_response_repair [("suggested_fix", PyVal.vStr "x")]).2.2.1 rfl
  refine ⟨?_, ?_, h3, h4, by rfl⟩
  · rw [h1]; norm_num
  · rw [h2]; norm_num

theorem hasKey_cons {α : Type} (kv : String × α) (rest : List (String × α)) (k : String) :
    hasKey (kv :: rest) k = (decide (kv.1 = k) || hasKey rest k) := by
  rw [hasKey_eq_isSome, hasKey_eq_isSome, dictGet_cons]
  by_cases h : kv.1 = k <;> simp [h]

theorem hasKey_nil {α : Type} (k : String) : hasKey ([] : List (String × α)) k = false := by
  simp [hasKey]

theorem hasKey_append {α : Type} (a b : List (String × α)) (k : String) :
    hasKey (a ++ b) k = (hasKey a k || hasKey b k) := by
  induction a with
  | nil => simp [hasKey_nil]
  | cons kv rest ih => simp [hasKey_cons, ih, Bool.or_assoc]

theorem hasKey_iff_mem_keys {α : Type} (d : List (String × α)) (k : String) :
    hasKey d k = true ↔ k ∈ d.map Prod.fst := by
  induction d with
  | nil => simp [hasKey_nil]
  | cons kv rest ih =>
    rw [hasKey_cons]
    by_cases h : kv.1 = k
    · simp [h]
    · have h' : ¬ k = kv.1 := fun hh => h hh.symm
      simp [h, h', ih]

theorem dictGet_isSome_of_mem {α : Type} (d : List (String × α)) (kv : String × α)
    (h : kv ∈ d) : (dictGet d kv.1).isSome = true := by
  rw [← hasKey_eq_isSome, hasKey_iff_mem_keys]
  exact List.mem_map_of_mem Prod.fst h

theorem dictSet_fresh {α : Type} (d : List (String × α)) (k : String) (v : α)
    (h : hasKey d k = false) : dictSet d k v = d ++ [(k, v)] := by
  induction d with
  | nil => simp [dictSet]
  | cons kv rest ih =>
    rw [hasKey_cons] at h
    simp only [Bool.or_eq_false_iff, decide_eq_false_iff_not] at h
    simp [dictSet, h.1, ih h.2]

theorem length_dictSet {α : Type} (d : List (String × α)) (k : String) (v : α) :
    (dictSet d k v).length = if hasKey d k then d.length else d.length + 1 := by
  induction d with
  | nil => simp [dictSet, hasKey_nil]
  | cons kv rest ih =>
    rw [hasKey_cons]
    by_cases h : kv.1 = k
    · simp [dictSet, h]
    · simp only [dictSet, h, if_false, decide_eq_false h, Bool.false_or]
      by_cases h2 : hasKey rest k <;> simp [h, h2, ih]

theorem dictSet_keys_of_hasKey {α : Type} (d : List (String × α)) (k : String) (v : α)
    (h : hasKey d k = true) : (dictSet d k v).map Prod.fst = d.map Prod.fst := by
  induction d with
  | nil => rw [hasKey_nil] at h; cases h
  | cons kv rest ih =>
    rw [hasKey_cons] at h
    by_cases hk : kv.1 = k
    · simp [dictSet, hk]
    · simp only [decide_eq_false hk, Bool.false_or] at h
      simp [dictSet, hk, ih h]

theorem update_cache_length_le (cache : Cache) (k : String) (v : PyObj)
    (h : cache.length ≤ cache_size_limit) :
    (update_cache cache_size_limit cache k v).length ≤ cache_size_limit := by
  unfold update_cache
  split
  · rw [length_dictSet]
    split <;> simp [cache_size_limit] at * <;> omega
  · rw [length_dictSet]
    split
    · omega
    · omega

theorem foldl_update_fresh (kvs : List (String × PyObj)) : ∀ cache : Cache,
    (kvs.map Prod.fst).Nodup → (∀ kv ∈ kvs, hasKey cache kv.1 = false) →
    cache.length + kvs.length ≤ cache_size_limit →
    kvs.foldl (fun c kv => update_cache cache_size_limit c kv.1 kv.2) cache = cache ++ kvs := by
  induction kvs with
  | nil => intro cache _ _ _; simp
  | cons kv rest ih =>
    intro cache hnd hfresh hlen
    simp only [List.length_cons] at hlen
    have hstep : update_cache cache_size_limit cache kv.1 kv.2 = cache ++ [kv] := by
      unfold update_cache
      rw [if_neg (by omega), dictSet_fresh _ _ _ (hfresh kv (List.mem_cons_self kv rest))]
    rw [List.foldl_cons, hstep, ih (cache ++ [kv]) (by simpa using hnd.of_cons)]
    · simp
    · intro kv' hkv'
      rw [hasKey_append, hasKey_cons, hasKey_nil]
      have h1 : hasKey cache kv'.1 = false := hfresh kv' (List.mem_cons_of_mem kv hkv')
      have h2 : ¬ kv.1 = kv'.1 := by
        simp only [List.map_cons, List.nodup_cons] at hnd
        intro he
        exact hnd.1 (he ▸ List.mem_map_of_mem Prod.fst hkv')
      simp [h1, h2]
    · simp
      omega

theorem update_at_capacity (cache : Cache) (k : String) (v : PyObj)
    (hlen : cache.length = cache_size_limit) (h : hasKey cache k = false) :
    update_cache cache_size_limit cache k v = cache.tail ++ [(k, v)] := by
  unfold update_cache
  rw [if_pos (by omega), dictSet_fresh]
  rw [hasKey_eq_isSome] at h ⊢
  rcases cache with _ | ⟨kv0, rest⟩
  · simpa using h
  · rw [dictGet_cons] at h
    rcases hh : dictGet rest k with _ | w
    · simpa using hh
    · rw [hh] at h
      split at h <;> simp at h

theorem cacheFold_length_le_aux (puts : List (String × PyObj)) : ∀ cache : Cache,
    cache.length ≤ cache_size_limit →
    (puts.foldl (fun c kv => update_cache cache_size_limit c kv.1 kv.2) cache).length ≤
      cache_size_limit := by
  induction puts with
  | nil => intro cache h; simpa using h
  | cons kv rest ih =>
    intro cache h
    rw [List.foldl_cons]
    exact ih _ (update_cache_length_le _ _ _ h)

/-- C3: the response cache never exceeds 50 entries after any sequence
of put operations from the empty cache; inserting a fresh key at
capacity evicts exactly the entry with the earliest insertion order;
re-assigning an existing key does not change the key order (no recency
refresh) and a cache hit returns the cached value with the cache
unchanged; inserting capacity+1 distinct keys leaves exactly capacity
entries, the first-inserted key absent and every later key present. -/
theorem response_cache_fifo :
    (∀ puts : List (String × PyObj), (cacheFold puts).length ≤ cache_size_limit) ∧
    (∀ (cache : Cache) (k : String) (v : PyObj), cache.length = cache_size_limit →
      hasKey cache k = false →
      update_cache cache_size_limit cache k v = cache.tail ++ [(k, v)]) ∧
    (∀ (cache : Cache) (k : String) (v : PyObj), hasKey cache k = true →
      (dictSet cache k v).map Prod.fst = cache.map Prod.fst) ∧
    (∀ (decode : String → Option PyObj) (api : String → String → Option String)
        (cache : Cache) (lt it : String) (v : PyObj),
      dictGet cache (generate_cache_key lt it) = some v →
      analyze_log decode api cache lt it = (some v, cache)) ∧
    (∀ kvs : List (String × PyObj), kvs.length = cache_size_limit + 1 →
      (kvs.map Prod.fst).Nodup →
      cacheFold kvs = kvs.tail ∧
      (cacheFold kvs).length = cache_size_limit ∧
      (∀ kv0, kvs.head? = some kv0 → dictGet (cacheFold kvs) kv0.1 = none) ∧
      (∀ kv ∈ kvs.tail, (dictGet (cacheFold kvs) kv.1).isSome = true)) := by
  refine ⟨?_, ?_, ?_, ?_, ?_⟩
  · intro puts
    exact cacheFold_length_le_aux puts [] (by simp)
  · intro cache k v hlen h
    exact update_at_capacity cache k v hlen h
  · intro cache k v h
    exact dictSet_keys_of_hasKey cache k v h
  · intro decode api cache lt it v h
    simp [analyze_log, h]
  · intro kvs hlen hnd
    obtain ⟨last, hdrop⟩ : ∃ a, kvs.drop cache_size_limit = [a] :=
      List.length_eq_one.mp (by rw [List.length_drop, hlen]; omega)
    have hsplit : kvs = kvs.take cache_size_limit ++ [last] := by
      rw [← hdrop, List.take_append_drop]
    have htk : (kvs.take cache_size_limit).length = cache_size_limit := by
      rw [List.length_take]; omega
    have hndtk : ((kvs.take cache_size_limit).map Prod.fst).Nodup := by
      rw [List.map_take]
      exact hnd.sublist (List.take_sublist _ _)
    have hnotmem : ¬ last.1 ∈ (kvs.take cache_size_limit).map Prod.fst := by
      have h2 := hnd
      rw [hsplit, List.map_append, List.nodup_append] at h2
      intro hm
      exact h2.2.2 hm (by simp)
    have hkfalse : hasKey (kvs.take cache_size_limit) last.1 = false := by
      rw [Bool.eq_false_iff]
      intro ht
      exact hnotmem ((hasKey_iff_mem_keys _ _).mp ht)
    have hfold_take :
        (kvs.take cache_size_limit).foldl
          (fun c kv => update_cache cache_size_limit c kv.1 kv.2) ([] : Cache) =
          kvs.take cache_size_limit := by
      have := foldl_update_fresh (kvs.take cache_size_limit) [] hndtk
        (by intro kv _; exact hasKey_nil kv.1) (by simp [htk])
      simpa using this
    have hfold : cacheFold kvs = (kvs.take cache_size_limit).tail ++ [last] := by
      unfold cacheFold
      conv_lhs => rw [hsplit]
      rw [List.foldl_append, hfold_take]
      simp only [List.foldl_cons, List.foldl_nil]
      exact update_at_capacity _ _ _ htk hkfalse
    have htail : kvs.tail = (kvs.take cache_size_limit).tail ++ [last] := by
      conv_lhs => rw [hsplit]
      rcases he : kvs.take cache_size_limit with _ | ⟨x, xs⟩
      · rw [he] at htk; simp [cache_size_limit] at htk
      · simp
    refine ⟨by rw [hfold, htail], ?_, ?_, ?_⟩
    · rw [hfold]
      simp [List.length_tail, htk]
      simp [cache_size_limit]
    · intro kv0 hhead
      have hk0 : kv0.1 ∉ (cacheFold kvs).map Prod.fst := by
        rw [hfold]
        rcases he : kvs.take cache_size_limit with _ | ⟨x, xs⟩
        · rw [he] at htk; simp [cache_size_limit] at htk
        · have hx : kv0 = x := by
            rw [hsplit, he] at hhead
            exact (by simpa using hhead : x = kv0).symm
          have h2 := hnd
          rw [hsplit, he] at h2
          simp only [List.map_append, List.map_cons, List.cons_append,
            List.nodup_cons] at h2
          rw [hx]
          simpa using h2.1
      apply dictGet_eq_none_of_hasKey_false
      rw [Bool.eq_false_iff]
      intro ht
      exact hk0 ((hasKey_iff_mem_keys _ _).mp ht)
    · intro kv hkv
      apply dictGet_isSome_of_mem
      rw [hfold, ← htail]
      exact hkv

/-- Witness for C3: 51 puts with distinct keys into an empty cache leave
exactly the last 50 entries. -/
theorem response_cache_fifo_witness :
    cacheFold ((List.range (cache_size_limit + 1)).map (fun i => (toString i, ([] : PyObj)))) =
      ((List.range (cache_size_limit + 1)).map (fun i => (toString i, ([] : PyObj)))).tail ∧
    (cacheFold
      ((List.range (cache_size_limit + 1)).map (fun i => (toString i, ([] : PyObj))))).length =
      cache_size_limit := by
  have h := response_cache_fifo.2.2.2.2
    ((List.range (cache_size_limit + 1)).map (fun i => (toString i, ([] : PyObj))))
    (by simp) (by decide)
  exact ⟨h.1, h.2.1⟩

theorem find_matching_nonsim (pattern : String → Bool) (full : List String) :
    ∀ (entries : List String) (acc : List String),
    acc.Pairwise (fun a b => is_similar_entry b a = false) →
    (entries.foldl (fun matching_entries entry =>
        if pattern entry then
          let context := contextOf full entry
          if matching_entries.any (fun existing => is_similar_entry context existing) then
            matching_entries
          else matching_entries ++ [context]
        else matching_entries) acc).Pairwise
      (fun a b => is_similar_entry b a = false) := by
  intro entries
  induction entries with
  | nil => intro acc h; simpa using h
  | cons e rest ih =>
    intro acc h
    rw [List.foldl_cons]
    apply ih
    by_cases hp : pattern e
    · simp only [hp, if_true]
      by_cases ha : acc.any (fun existing => is_similar_entry (contextOf full e) existing)
      · simpa [ha] using h
      · simp only [ha, Bool.false_eq_true, if_false]
        rw [List.pairwise_append]
        refine ⟨h, by simp, ?_⟩
        intro a hmem b hb
        simp only [List.mem_singleton] at hb
        subst hb
        rw [List.any_eq_true] at ha
        push_neg at ha
        have := ha a
        simp only [hmem, true_implies] at this
        simpa using this
    · simpa [hp] using h

/-- C4: the similarity predicate is exact string equality when either
string is shorter than 20 characters and equality of the character range
[20,100) otherwise; consequently the retained candidate list of any
category never contains two distinct positions holding strings of length
at least 100 with identical characters in range [20,100). -/
theorem similarity_dedup (e1 e2 : String) (pattern : String → Bool) (entries : List String) :
    ((e1.length < 20 ∨ e2.length < 20) → (is_similar_entry e1 e2 = true ↔ e1 = e2)) ∧
    (20 ≤ e1.length → 20 ≤ e2.length →
      (is_similar_entry e1 e2 = true ↔ pySlice e1 20 100 = pySlice e2 20 100)) ∧
    (find_matching_entries pattern entries).Pairwise
      (fun a b => ¬ (100 ≤ a.length ∧ 100 ≤ b.length ∧ pySlice a 20 100 = pySlice b 20 100)) := by
  refine ⟨?_, ?_, ?_⟩
  · intro h
    unfold is_similar_entry
    rw [if_pos]
    · simp
    · rcases h with h | h <;> simp [h]
  · intro h1 h2
    unfold is_similar_entry
    rw [if_neg]
    · simp
    · simp
      omega
  · have hinv := find_matching_nonsim pattern entries entries [] (by simp)
    apply List.Pairwise.imp ?_ hinv
    intro a b hab
    rintro ⟨ha, hb, hs⟩
    unfold is_similar_entry at hab
    rw [if_neg (by simp; omega)] at hab
    rw [hs] at hab
    simp at hab

/-- Witness for C4: the similarity characterisation applied at concrete
short and long strings. -/
theorem similarity_dedup_witness :
    (is_similar_entry "ab" "ab" = true ↔ "ab" = "ab") ∧
    (is_similar_entry "aaaaaaaaaaaaaaaaaaaabcd" "aaaaaaaaaaaaaaaaaaaaxyz" = true ↔
      pySlice "aaaaaaaaaaaaaaaaaaaabcd" 20 100 = pySlice "aaaaaaaaaaaaaaaaaaaaxyz" 20 100) := by
  constructor
  · exact (similarity_dedup "ab" "ab" (fun _ => true) []).1 (Or.inl (by decide))
  · exact (similarity_dedup "aaaaaaaaaaaaaaaaaaaabcd" "aaaaaaaaaaaaaaaaaaaaxyz"
      (fun _ => true) []).2.1 (by decide) (by decide)

theorem processSnippet_lastPosition (decode : String → Option PyObj)
    (api : String → String → Option String) (it : String) (st : MonState) (s : String) :
    (processSnippet decode api it st s).lastPosition = st.lastPosition := by
  simp only [processSnippet]
  rcases hr : (analyze_log decode api st.cache s it).1 with _ | a
  · simp [hr]
  · simp only [hr]
    split <;> rfl

theorem foldl_lastPosition {α : Type} (f : MonState → α → MonState) (l : List α)
    (hf : ∀ st a, (f st a).lastPosition = st.lastPosition) :
    ∀ st : MonState, (l.foldl f st).lastPosition = st.lastPosition := by
  induction l with
  | nil => intro st; rfl
  | cons a rest ih =>
    intro st
    rw [List.foldl_cons, ih, hf]

/-- C6: when the observed file size equals the stored cursor the scan
returns early: the state (cursor, issue store and cache) is unchanged,
the text read is empty and zero candidate snippets are produced. -/
theorem scan_no_new_data (patterns : List (String × (String → Bool)))
    (decode : String → Option PyObj) (api : String → String → Option String)
    (content : List Char) (st : MonState) (h : content.length = st.lastPosition) :
    analyze_logs patterns decode api content st = (st, "", []) := by
  unfold analyze_logs
  rw [h]
  simp

/-- Witness for C6: a 2-byte file with cursor 2 leaves the state
untouched and produces nothing. -/
theorem scan_no_new_data_witness :
    analyze_logs [] (fun _ => none) (fun _ _ => none) ['a', 'b']
      ⟨2, [], []⟩ = (⟨2, [], []⟩, "", []) := by
  exact scan_no_new_data [] (fun _ => none) (fun _ _ => none) ['a', 'b'] ⟨2, [], []⟩ (by decide)

/-- C5: when the observed file size is strictly smaller than the stored
cursor, the scan behaves exactly as if the cursor had been reset to 0
before reading, reads the byte range from the reset cursor to the
current size (the whole file), and leaves the cursor at that size. -/
theorem scan_rotation (patterns : List (String × (String → Bool)))
    (decode : String → Option PyObj) (api : String → String → Option String)
    (content : List Char) (st : MonState) (h : content.length < st.lastPosition) :
    analyze_logs patterns decode api content st =
      analyze_logs patterns decode api content { st with lastPosition := 0 } ∧
    (analyze_logs patterns decode api content st).1.lastPosition = content.length ∧
    (analyze_logs patterns decode api content st).2.1 = List.asString content := by
  have hpos : (if content.length < st.lastPosition then 0 else st.lastPosition) = 0 := if_pos h
  have hf : ∀ (stx : MonState) (tc : String × List String),
      ((tc.2.take 5).foldl (processSnippet decode api tc.1) stx).lastPosition =
        stx.lastPosition := by
    intro stx tc
    exact foldl_lastPosition _ _
      (fun stt a => processSnippet_lastPosition decode api tc.1 stt a) stx
  refine ⟨?_, ?_, ?_⟩
  · simp only [analyze_logs, hpos]
    simp
  · rcases Nat.eq_zero_or_pos content.length with h0 | h0
    · simp only [analyze_logs, hpos]
      rw [if_pos (by simpa using h0)]
      simp [h0]
    · simp only [analyze_logs, hpos]
      rw [if_neg (by simpa using Nat.pos_iff_ne_zero.mp h0)]
      dsimp only
      rw [foldl_lastPosition _ _ hf]
  · rcases Nat.eq_zero_or_pos content.length with h0 | h0
    · have hc : content = [] := List.length_eq_zero.mp h0
      subst hc
      simp only [analyze_logs]
      split <;> rfl
    · simp only [analyze_logs, hpos]
      rw [if_neg (by simpa using Nat.pos_iff_ne_zero.mp h0)]
      dsimp only
      rw [List.drop_zero]

/-- Witness for C5: a 1-byte file with a stored cursor of 5 is re-read
from offset 0 and the cursor ends at 1. -/
theorem scan_rotation_witness :
    analyze_logs [] (fun _ => none) (fun _ _ => none) ['a'] ⟨5, [], []⟩ =
      analyze_logs [] (fun _ => none) (fun _ _ => none) ['a'] ⟨0, [], []⟩ ∧
    (analyze_logs [] (fun _ => none) (fun _ _ => none) ['a'] ⟨5, [], []⟩).1.lastPosition = 1 ∧
    (analyze_logs [] (fun _ => none) (fun _ _ => none) ['a'] ⟨5, [], []⟩).2.1 =
      List.asString ['a'] := by
  exact scan_rotation [] (fun _ => none) (fun _ _ => none) ['a'] ⟨5, [], []⟩ (by decide)

theorem window_decomp (l : List String) (i0 : Nat) (h : i0 < l.length) :
    (l.drop (i0 - 2)).take (min l.length (i0 + 3) - (i0 - 2)) =
      ((l.take i0).drop (i0 - 2)) ++ l.get ⟨i0, h⟩ :: ((l.drop (i0 + 1)).take 2) := by
  rw [← List.drop_take]
  have e1 : l.take (min l.length (i0 + 3)) = l.take (i0 + 3) :=
    List.take_eq_take.mpr (by omega)
  rw [e1]
  have e2 : l.take (i0 + 3) = l.take (i0 + 1) ++ (l.drop (i0 + 1)).take 2 := by
    have := List.take_add l (i0 + 1) 2
    simpa using this
  rw [e2]
  have e3 : l.take (i0 + 1) = l.take i0 ++ [l.get ⟨i0, h⟩] := by
    rw [List.take_succ]
    congr
    rw [List.getElem?_eq_getElem h]
    rfl
  rw [e3, List.append_assoc,
    List.drop_append_of_le_length (by rw [List.length_take]; omega)]
  simp

/-- C7: for every entry of the segmented list that matches a category
pattern, the promoted candidate is the context window around the (first)
occurrence of that entry: up to 2 entries immediately preceding it, the
matched entry itself, and up to 2 entries immediately following it,
clipped at the list boundaries and joined with newlines. -/
theorem context_window (pattern : String → Bool) (entries : List String) (entry : String)
    (hmem : entry ∈ entries) (_hmatch : pattern entry = true) :
    ∃ i0, ∃ h : i0 < entries.length,
      entries.get ⟨i0, h⟩ = entry ∧
      ((entries.take i0).drop (i0 - 2)).length ≤ 2 ∧
      ((entries.drop (i0 + 1)).take 2).length ≤ 2 ∧
      contextOf entries entry =
        String.intercalate "\n"
          (((entries.take i0).drop (i0 - 2)) ++ entry :: ((entries.drop (i0 + 1)).take 2)) := by
  have hlt : entries.indexOf entry < entries.length := List.indexOf_lt_length.mpr hmem
  refine ⟨entries.indexOf entry, hlt, List.indexOf_get hlt, ?_, ?_, ?_⟩
  · rw [List.length_drop, List.length_take]; omega
  · rw [List.length_take, List.length_drop]; omega
  · simp only [contextOf]
    rw [window_decomp entries (entries.indexOf entry) hlt, List.indexOf_get hlt]

/-- Witness for C7: in a six-entry list the window around the fourth
entry is the surrounding five entries joined with newlines. -/
theorem context_window_witness :
    (∃ i0, ∃ h : i0 < (["a", "b", "c", "d", "e", "f"] : List String).length,
      (["a", "b", "c", "d", "e", "f"] : List String).get ⟨i0, h⟩ = "d" ∧
      ((((["a", "b", "c", "d", "e", "f"] : List String).take i0)).drop (i0 - 2)).length ≤ 2 ∧
      (((["a", "b", "c", "d", "e", "f"] : List String).drop (i0 + 1)).take 2).length ≤ 2 ∧
      contextOf ["a", "b", "c", "d", "e", "f"] "d" =
        String.intercalate "\n"
          ((((["a", "b", "c", "d", "e", "f"] : List String).take i0).drop (i0 - 2)) ++
            "d" :: (((["a", "b", "c", "d", "e", "f"] : List String).drop (i0 + 1)).take 2))) ∧
    contextOf ["a", "b", "c", "d", "e", "f"] "d" = "b\nc\nd\ne\nf" := by
  constructor
  · exact context_window (fun _ => true) ["a", "b", "c", "d", "e", "f"] "d" (by decide) rfl
  · rfl

/-- C8: get_issues with a (nonempty) category returns exactly the issues
of that category in insertion order; a positive limit keeps the most
recent limit entries as an order-preserving tail (a suffix of the right
length), also after category filtering; and on a store of 5 issues a
limit of 2 returns exactly the last 2 in original order. -/
theorem get_issues_query (issues : List Issue) (c : String) (l : Int) :
    (c ≠ "" → get_issues issues none (some c) =
      issues.filter (fun i => i.issue_type == c)) ∧
    (0 < l → get_issues issues (some l) none =
      issues.drop (issues.length - l.toNat) ∧
      (get_issues issues (some l) none) <:+ issues ∧
      (get_issues issues (some l) none).length = min l.toNat issues.length) ∧
    (c ≠ "" → 0 < l → get_issues issues (some l) (some c) =
      (issues.filter (fun i => i.issue_type == c)).drop
        ((issues.filter (fun i => i.issue_type == c)).length - l.toNat)) ∧
    (∀ i1 i2 i3 i4 i5 : Issue,
      get_issues [i1, i2, i3, i4, i5] (some 2) none = [i4, i5]) := by
  refine ⟨?_, ?_, ?_, ?_⟩
  · intro hc
    simp only [get_issues]
    rw [if_pos (by simpa using hc)]
  · intro hl
    have hcond : ((l != 0) && decide (l > 0)) = true := by
      simp
      omega
    refine ⟨?_, ?_, ?_⟩
    · simp only [get_issues]
      rw [if_pos hcond]
    · simp only [get_issues]
      rw [if_pos hcond]
      exact List.drop_suffix _ _
    · simp only [get_issues]
      rw [if_pos hcond]
      rw [List.length_drop]
      omega
  · intro hc hl
    have hcond : ((l != 0) && decide (l > 0)) = true := by
      simp
      omega
    simp only [get_issues]
    rw [if_pos (show (c != "") = true by simpa using hc), if_pos hcond]
  · intro i1 i2 i3 i4 i5
    rfl

/-- Witness for C8: the empty store filtered by a category is empty, and
a limit of 2 on 5 issues keeps the last two. -/
theorem get_issues_query_witness :
    get_issues [] none (some "script_error") = [] ∧
    (∀ i1 i2 i3 i4 i5 : Issue, get_issues [i1, i2, i3, i4, i5] (some 2) none = [i4, i5]) := by
  constructor
  · exact (get_issues_query [] "script_error" 2).1 (by decide)
  · exact (get_issues_query [] "script_error" 2).2.2.2

theorem takeWhile_append_not (p : Char → Bool) (xs : List Char) (y : Char) (ys : List Char)
    (hxs : ∀ x ∈ xs, p x = true) (hy : p y = false) :
    (xs ++ y :: ys).takeWhile p = xs := by
  induction xs with
  | nil => simp [List.takeWhile, hy]
  | cons x rest ih =>
    have hx : p x = true := hxs x (by simp)
    simp only [List.cons_append, List.takeWhile_cons, hx, if_true]
    rw [ih (fun a ha => hxs a (by simp [ha]))]

theorem mem_pySetList (l : List String) (a : String) : a ∈ pySetList l ↔ a ∈ l := by
  induction l with
  | nil => simp [pySetList]
  | cons x rest ih =>
    simp only [pySetList]
    split
    · rw [ih]
      constructor
      · intro h; exact List.mem_cons_of_mem x h
      · intro h
        rcases List.mem_cons.mp h with h | h
        · subst h; assumption
        · exact h
    · simp [ih]

theorem nodup_pySetList (l : List String) : (pySetList l).Nodup := by
  induction l with
  | nil => simp [pySetList]
  | cons x rest ih =>
    simp only [pySetList]
    split
    · exact ih
    · exact List.nodup_cons.mpr ⟨fun hm => ‹¬ x ∈ rest› ((mem_pySetList rest x).mp hm), ih⟩

theorem entityMatchAt_shape (cs m rem : List Char) (h : entityMatchAt cs = some (m, rem)) :
    entityShape m.asString = true := by
  unfold entityMatchAt at h
  by_cases h1 : (cs.takeWhile isEntChar).isEmpty
  · simp [h1] at h
  · simp only [h1, Bool.false_eq_true, if_false] at h
    rcases hd : cs.drop (cs.takeWhile isEntChar).length with _ | ⟨c, rest2⟩ <;> rw [hd] at h
    · simp at h
    · by_cases hc : c = '.'
      · subst hc
        by_cases h2 : (rest2.takeWhile isEntChar2).isEmpty
        · simp [h2] at h
        · simp only [h2, Bool.false_eq_true, if_false, Option.some.injEq, Prod.mk.injEq] at h
          have hm : m = cs.takeWhile isEntChar ++ '.' :: rest2.takeWhile isEntChar2 := h.1.symm
          have hall1 : ∀ x ∈ cs.takeWhile isEntChar, isEntChar x = true :=
            fun x hx => List.mem_takeWhile_imp hx
          have hall2 : ∀ x ∈ rest2.takeWhile isEntChar2, isEntChar2 x = true :=
            fun x hx => List.mem_takeWhile_imp hx
          rw [hm]
          simp only [entityShape, List.toList_asString]
          rw [takeWhile_append_not isEntChar _ '.' _ hall1 (by decide)]
          rw [List.drop_left' rfl]
          simp [h1, h2, hall2]
      · simp [hc] at h

theorem entityFindallGo_shape : ∀ (fuel : Nat) (cs : List Char) (m : List Char),
    m ∈ entityFindallGo fuel cs → entityShape m.asString = true := by
  intro fuel
  induction fuel with
  | zero => intro cs m h; simp [entityFindallGo] at h
  | succ n ih =>
    intro cs m h
    rcases cs with _ | ⟨c, rest⟩
    · simp [entityFindallGo] at h
    · unfold entityFindallGo at h
      rcases hma : entityMatchAt (c :: rest) with _ | ⟨mm, rem⟩ <;> rw [hma] at h
      · exact ih rest m h
      · rcases List.mem_cons.mp h with h | h
        · subst h
          exact entityMatchAt_shape (c :: rest) m rem hma
        · exact ih rem m h

theorem entityFindall_shape (s : String) (x : String) (h : x ∈ entityFindall s) :
    entityShape x = true := by
  unfold entityFindall at h
  rcases List.mem_map.mp h with ⟨m, hm, rfl⟩
  exact entityFindallGo_shape s.length s.toList m hm

theorem componentMatchAt_shape (cs m rem : List Char) (h : componentMatchAt cs = some (m, rem)) :
    componentShape m.asString = true := by
  unfold componentMatchAt at h
  rcases hk : componentKeyword cs with _ | k <;> simp only [hk] at h
  · exact absurd h (by simp)
  · split at h
    · split at h
      · simp at h
      · rename_i rest heq hne
        simp only [Option.some.injEq, Prod.mk.injEq] at h
        rw [← h.1]
        have hall : ∀ x ∈ rest.takeWhile isEntChar, isEntChar x = true :=
          fun x hx => List.mem_takeWhile_imp hx
        simp only [componentShape, List.toList_asString]
        simp only [Bool.not_eq_true] at hne
        simp [hne, hall]
    · simp at h

theorem componentFindallGo_shape : ∀ (fuel : Nat) (cs : List Char) (m : List Char),
    m ∈ componentFindallGo fuel cs → componentShape m.asString = true := by
  intro fuel
  induction fuel with
  | zero => intro cs m h; simp [componentFindallGo] at h
  | succ n ih =>
    intro cs m h
    rcases cs with _ | ⟨c, rest⟩
    · simp [componentFindallGo] at h
    · unfold componentFindallGo at h
      rcases hma : componentMatchAt (c :: rest) with _ | ⟨mm, rem⟩ <;> rw [hma] at h
      · exact ih rest m h
      · rcases List.mem_cons.mp h with h | h
        · subst h
          exact componentMatchAt_shape (c :: rest) m rem hma
        · exact ih rem m h

theorem componentFindall_shape (s : String) (x : String) (h : x ∈ componentFindall s) :
    componentShape x = true := by
  unfold componentFindall at h
  rcases List.mem_map.mp h with ⟨m, hm, rfl⟩
  exact componentFindallGo_shape s.length s.toList m hm

theorem serviceMatchAt_shape (cs m rem : List Char) (h : serviceMatchAt cs = some (m, rem)) :
    serviceShape m.asString = true := by
  unfold serviceMatchAt at h
  split at h
  · dsimp only at h
    split at h
    · simp at h
    · rename_i hne1
      split at h
      · rename_i rest2 heq
        split at h
        · simp at h
        · rename_i hne2
          simp only [Option.some.injEq, Prod.mk.injEq] at h
          have hall1 : ∀ x ∈ (cs.drop 8).takeWhile isEntChar, isEntChar x = true :=
            fun x hx => List.mem_takeWhile_imp hx
          have hall2 : ∀ x ∈ rest2.takeWhile isEntChar, isEntChar x = true :=
            fun x hx => List.mem_takeWhile_imp hx
          rw [← h.1]
          simp only [serviceShape, List.toList_asString]
          rw [takeWhile_append_not isEntChar _ '.' _ hall1 (by decide)]
          rw [List.drop_left' rfl]
          simp only [Bool.not_eq_true] at hne1 hne2
          simp [hne1, hne2, hall2]
      · simp at h
  · simp at h

theorem serviceFindallGo_shape : ∀ (fuel : Nat) (cs : List Char) (m : List Char),
    m ∈ serviceFindallGo fuel cs → serviceShape m.asString = true := by
  intro fuel
  induction fuel with
  | zero => intro cs m h; simp [serviceFindallGo] at h
  | succ n ih =>
    intro cs m h
    rcases cs with _ | ⟨c, rest⟩
    · simp [serviceFindallGo] at h
    · unfold serviceFindallGo at h
      rcases hma : serviceMatchAt (c :: rest) with _ | ⟨mm, rem⟩ <;> rw [hma] at h
      · exact ih rest m h
      · rcases List.mem_cons.mp h with h | h
        · subst h
          exact serviceMatchAt_shape (c :: rest) m rem hma
        · exact ih rem m h

theorem serviceFindall_shape (s : String) (x : String) (h : x ∈ serviceFindall s) :
    serviceShape x = true := by
  unfold serviceFindall at h
  rcases List.mem_map.mp h with ⟨m, hm, rfl⟩
  exact serviceFindallGo_shape s.length s.toList m hm

/-- C9 (amended): metadata extraction returns entity identifiers matched
case-insensitively as dotted domain.object tokens (letters or
underscores before the dot, letters, digits or underscores after,
returned in original case), component names via the
component|integration|platform phrase keeping only the captured
letters-or-underscores name, and service identifiers via the service
domain.service phrase, each list deduplicated (nodup, membership equal
to the findall matches, order not significant). -/
theorem extract_metadata_tokens (s t : String) :
    (extract_metadata s t).issue_type = t ∧
    (extract_metadata s t).entities.Nodup ∧
    (∀ x, x ∈ (extract_metadata s t).entities ↔ x ∈ entityFindall s) ∧
    (∀ x, x ∈ (extract_metadata s t).entities → entityShape x = true) ∧
    (extract_metadata s t).components.Nodup ∧
    (∀ x, x ∈ (extract_metadata s t).components ↔ x ∈ componentFindall s) ∧
    (∀ x, x ∈ (extract_metadata s t).components → componentShape x = true) ∧
    (extract_metadata s t).services.Nodup ∧
    (∀ x, x ∈ (extract_metadata s t).services ↔ x ∈ serviceFindall s) ∧
    (∀ x, x ∈ (extract_metadata s t).services → serviceShape x = true) := by
  refine ⟨rfl, nodup_pySetList _, fun x => mem_pySetList _ x, ?_,
    nodup_pySetList _, fun x => mem_pySetList _ x, ?_,
    nodup_pySetList _, fun x => mem_pySetList _ x, ?_⟩
  · intro x hx
    exact entityFindall_shape s x ((mem_pySetList _ x).mp hx)
  · intro x hx
    exact componentFindall_shape s x ((mem_pySetList _ x).mp hx)
  · intro x hx
    exact serviceFindall_shape s x ((mem_pySetList _ x).mp hx)

/-- Counterexample for C9: the entity pattern is compiled with
re.IGNORECASE, so the uppercase token LIGHT.KITCHEN is matched and
returned verbatim, which is not a lowercase token. -/
theorem extract_metadata_uppercase_counterexample :
    (extract_metadata "LIGHT.KITCHEN" "entity_unavailable").entities = ["LIGHT.KITCHEN"] ∧
    isLowercaseToken "LIGHT.KITCHEN" = false := by
  exact ⟨rfl, rfl⟩

/-- Witness for C9: a concrete snippet yields light.kitchen as an
entity, hue as a component and light.turn_on as a service, all of the
stated shapes. -/
theorem extract_metadata_tokens_witness :
    ("light.kitchen" ∈ (extract_metadata
        "Component hue: light.kitchen unavailable after service light.turn_on"
        "entity_unavailable").entities ↔
      "light.kitchen" ∈ entityFindall
        "Component hue: light.kitchen unavailable after service light.turn_on") ∧
    entityShape "light.kitchen" = true ∧
    componentShape "hue" = true ∧
    serviceShape "light.turn_on" = true := by
  refine ⟨(extract_metadata_tokens
    "Component hue: light.kitchen unavailable after service light.turn_on"
    "entity_unavailable").2.2.1 "light.kitchen", ?_, ?_, ?_⟩
  · exact (extract_metadata_tokens
      "Component hue: light.kitchen unavailable after service light.turn_on"
      "entity_unavailable").2.2.2.1 "light.kitchen" (by decide)
  · exact (extract_metadata_tokens
      "Component hue: light.kitchen unavailable after service light.turn_on"
      "entity_unavailable").2.2.2.2.2.2.1 "hue" (by decide)
  · exact (extract_metadata_tokens
      "Component hue: light.kitchen unavailable after service light.turn_on"
      "entity_unavailable").2.2.2.2.2.2.2.2.2 "light.turn_on" (by decide)

theorem analyze_log_fallback (decode : String → Option PyObj)
    (api : String → String → Option String) (cache : Cache) (lt it body : String)
    (hmiss : dictGet cache (generate_cache_key lt it) = none)
    (happi : api lt it = some body) (hdec : decode body = none) :
    analyze_log decode api cache lt it =
      (some fallbackDiagnosis,
       update_cache cache_size_limit cache (generate_cache_key lt it) fallbackDiagnosis) := by
  simp only [analyze_log, hmiss, happi, hdec]
  rfl

theorem dictGet_update_cache_self (limit : Nat) (cache : Cache) (k : String) (v : PyObj) :
    dictGet (update_cache limit cache k v) k = some v := by
  unfold update_cache
  rw [dictGet_dictSet, if_pos rfl]

theorem scan_fallback_issue (patterns : List (String × (String → Bool)))
    (decode : String → Option PyObj) (api : String → String → Option String)
    (content : List Char) (st : MonState) (t snippet body : String)
    (hgrow : st.lastPosition < content.length)
    (hident : identify_potential_issues patterns
      (List.asString (content.drop st.lastPosition)) = [(t, [snippet])])
    (hmiss : dictGet st.cache (generate_cache_key snippet t) = none)
    (happi : api snippet t = some body) (hdec : decode body = none) :
    (analyze_logs patterns decode api content st).1.issues =
      st.issues ++ [{ issue_type := t, log_snippet := snippet,
                      suggested_fix :=
                        .vStr "Could not generate a suggestion (API response format error)",
                      confidence := .vInt 0, details := .vStr "",
                      metadata := extract_metadata snippet t }] ∧
    dictGet (analyze_logs patterns decode api content st).1.cache
      (generate_cache_key snippet t) = some fallbackDiagnosis := by
  have e1 : (if content.length < st.lastPosition then 0 else st.lastPosition) =
      st.lastPosition := if_neg (by omega)
  have e2 : (content.length == st.lastPosition) = false := by
    simp
    omega
  simp only [analyze_logs, e1, e2, Bool.false_eq_true, if_false, hident,
    List.foldl_cons, List.foldl_nil]
  have e3 : ([snippet].take 5) = [snippet] := rfl
  simp only [e3, List.foldl_cons, List.foldl_nil]
  simp only [processSnippet, analyze_log_fallback decode api _ snippet t body hmiss happi hdec]
  constructor
  · rfl
  · exact dictGet_update_cache_self _ _ _ _

/-- C10: a completion body that fails to parse as JSON yields the
fallback diagnosis whose suggested_fix is the non-empty placeholder and
whose confidence is 0; because the fix is truthy the analyzer writes the
fallback into the response cache under the request cache key and returns
it; and a scan cycle whose candidate hits this path appends a new Issue
with confidence 0 for that candidate and ends with the fallback
cached. -/
theorem fallback_diagnosis_flow :
    (parse_response none = fallbackDiagnosis) ∧
    (dictGet fallbackDiagnosis "suggested_fix" =
      some (.vStr "Could not generate a suggestion (API response format error)")) ∧
    (pyTruthy (.vStr "Could not generate a suggestion (API response format error)") = true) ∧
    (dictGet fallbackDiagnosis "confidence" = some (.vInt 0)) ∧
    (∀ (decode : String → Option PyObj) (api : String → String → Option String)
        (cache : Cache) (lt it body : String),
      dictGet cache (generate_cache_key lt it) = none →
      api lt it = some body → decode body = none →
      analyze_log decode api cache lt it =
        (some fallbackDiagnosis,
         update_cache cache_size_limit cache (generate_cache_key lt it) fallbackDiagnosis) ∧
      dictGet (update_cache cache_size_limit cache (generate_cache_key lt it) fallbackDiagnosis)
        (generate_cache_key lt it) = some fallbackDiagnosis) ∧
    (∀ (patterns : List (String × (String → Bool))) (decode : String → Option PyObj)
        (api : String → String → Option String) (content : List Char) (st : MonState)
        (t snippet body : String),
      st.lastPosition < content.length →
      identify_potential_issues patterns (List.asString (content.drop st.lastPosition)) =
        [(t, [snippet])] →
      dictGet st.cache (generate_cache_key snippet t) = none →
      api snippet t = some body → decode body = none →
      (analyze_logs patterns decode api content st).1.issues =
        st.issues ++ [{ issue_type := t, log_snippet := snippet,
                        suggested_fix :=
                          .vStr "Could not generate a suggestion (API response format error)",
                        confidence := .vInt 0, details := .vStr "",
                        metadata := extract_metadata snippet t }] ∧
      dictGet (analyze_logs patterns decode api content st).1.cache
        (generate_cache_key snippet t) = some fallbackDiagnosis) := by
  refine ⟨rfl, rfl, rfl, rfl, ?_, ?_⟩
  · intro decode api cache lt it body hmiss happi hdec
    exact ⟨analyze_log_fallback decode api cache lt it body hmiss happi hdec,
      dictGet_update_cache_self _ _ _ _⟩
  · intro patterns decode api content st t snippet body hgrow hident hmiss happi hdec
    exact scan_fallback_issue patterns decode api content st t snippet body
      hgrow hident hmiss happi hdec

/-- Witness for C10: scanning one timestamped ERROR line against a
non-JSON completion body appends exactly one confidence-0 issue and
caches the fallback. -/
theorem fallback_diagnosis_flow_witness :
    (analyze_logs [("general_error", fun _ => true)] (fun _ => none)
      (fun _ _ => some "not json") ("2024-01-01 00:00:00 ERROR boom".toList)
      ⟨0, [], []⟩).1.issues =
      [{ issue_type := "general_error", log_snippet := "2024-01-01 00:00:00 ERROR boom",
         suggested_fix := .vStr "Could not generate a suggestion (API response format error)",
         confidence := .vInt 0, details := .vStr "",
         metadata := extract_metadata "2024-01-01 00:00:00 ERROR boom" "general_error" }] ∧
    dictGet (analyze_logs [("general_error", fun _ => true)] (fun _ => none)
      (fun _ _ => some "not json") ("2024-01-01 00:00:00 ERROR boom".toList)
      ⟨0, [], []⟩).1.cache
      (generate_cache_key "2024-01-01 00:00:00 ERROR boom" "general_error") =
      some fallbackDiagnosis := by
  have h := fallback_diagnosis_flow.2.2.2.2.2 [("general_error", fun _ => true)]
    (fun _ => none) (fun _ _ => some "not json") ("2024-01-01 00:00:00 ERROR boom".toList)
    ⟨0, [], []⟩ "general_error" "2024-01-01 00:00:00 ERROR boom" "not json"
    (by decide) (by decide) rfl rfl rfl
  simpa using h
